import Mathlib

/-!
Verification development for the tsls-service repository.

The service holds an in-memory model of a multi-file source project and
answers symbol-level queries over JSON-RPC (src/server.ts) plus a set of
skill functions operating on a module-level project (the skills module).
The definitions below are a shallow embedding of that code:

* `Tree` models a ts-morph AST node (kind, text, source range, children).
* `childAtPos` / `descendAux` / `getDescendantAtPos` model ts-morph's
  `Node.getChildAtPos` / `Node.getDescendantAtPos` (descend into the child
  whose range covers the position, until no child covers it; the source
  file root itself is never returned).  The ancestor chain of the returned
  node (nearest first, ending at the root) is computed alongside, so that
  `getFirstAncestorByKind` becomes `List.find?` over that chain.
* `resolveAtPosition` embeds steps 3-4 of the `find_references` tool in
  src/server.ts (getDescendantAtPos, identifier check, ancestor walk,
  -32001 errors).
* `findRefsForNode` embeds `findRefsForNode` in src/server.ts: the nested
  for-loops that flatten the provider's referenced-symbol groups, and the
  map to `{file (made relative to the repo root), line, position}`.
* `getProject` embeds the TTL project cache of src/server.ts; the Project
  instance is represented by a numeric identity drawn from a counter.
-/

namespace TSLS

/-- Syntax kinds the embedded code distinguishes: identifiers, the
nodes for import declarations, and everything else. -/
inductive SKind : Type where
  | identifier : SKind
  | importDecl : SKind
  | other : SKind
deriving DecidableEq, Repr

/-- A ts-morph AST node: kind, node text, range start, range end, children.
For an import declaration node the `text` field carries its module
specifier value. -/
inductive Tree : Type where
  | mk : SKind → String → Nat → Nat → List Tree → Tree

def Tree.kind : Tree → SKind
  | .mk k _ _ _ _ => k

def Tree.text : Tree → String
  | .mk _ tx _ _ _ => tx

def Tree.startPos : Tree → Nat
  | .mk _ _ s _ _ => s

def Tree.stopPos : Tree → Nat
  | .mk _ _ _ e _ => e

def Tree.children : Tree → List Tree
  | .mk _ _ _ _ cs => cs

theorem Tree.sizeOf_children_lt (t : Tree) : sizeOf t.children < sizeOf t := by
  cases t with
  | mk k tx s e cs => simp [Tree.children]

/-- Whether the node's range `[startPos, stopPos)` covers the position. -/
def coversB (c : Tree) (pos : Nat) : Bool :=
  decide (c.startPos ≤ pos) && decide (pos < c.stopPos)

/-- Embedding of ts-morph `Node.getChildAtPos`: `undefined` when the
position lies outside the node's own range, else the first child whose
range covers the position. -/
def childAtPos (t : Tree) (pos : Nat) : Option Tree :=
  if pos < t.startPos ∨ t.stopPos ≤ pos then none
  else t.children.find? (fun c => coversB c pos)

theorem childAtPos_mem {t : Tree} {pos : Nat} {c : Tree}
    (h : childAtPos t pos = some c) : c ∈ t.children := by
  unfold childAtPos at h
  split at h
  · exact absurd h (by simp)
  · exact List.mem_of_find?_eq_some h

theorem childAtPos_covers {t : Tree} {pos : Nat} {c : Tree}
    (h : childAtPos t pos = some c) : coversB c pos = true := by
  unfold childAtPos at h
  split at h
  · exact absurd h (by simp)
  · have h2 := List.find?_some h
    simpa using h2

/-- Embedding of the loop inside ts-morph `Node.getDescendantAtPos`:
repeatedly step to the child covering `pos` until no child covers it,
collecting the ancestor chain (nearest ancestor first). -/
def descendAux (pos : Nat) (t : Tree) (anc : List Tree) : Tree × List Tree :=
  match h : childAtPos t pos with
  | none => (t, anc)
  | some c => descendAux pos c (t :: anc)
termination_by sizeOf t
decreasing_by
  have hmem : c ∈ t.children := childAtPos_mem h
  have h1 := List.sizeOf_lt_of_mem hmem
  have h2 := Tree.sizeOf_children_lt t
  omega

/-- Embedding of ts-morph `SourceFile.getDescendantAtPos`: `none` when no
child of the root covers the position (the root itself is never
returned); otherwise the deepest covering node together with its ancestor
chain (nearest first, ending at the root). -/
def getDescendantAtPos (root : Tree) (pos : Nat) : Option (Tree × List Tree) :=
  match childAtPos root pos with
  | none => none
  | some c => some (descendAux pos c [root])

/-- A JSON-RPC style error object thrown by the tool handlers. -/
structure RpcError where
  code : Int
  message : String
deriving DecidableEq, Repr

/-- Embedding of steps 3-4 of the `find_references` tool in src/server.ts:
resolve a (file, position) pair to an identifier node, or fail with a
-32001 error. -/
def resolveAtPosition (file : Tree) (pos : Nat) : Except RpcError Tree :=
  match getDescendantAtPos file pos with
  | none => .error { code := -32001, message := "No node found at position " ++ toString pos }
  | some (n, anc) =>
      if n.kind = SKind.identifier then .ok n
      else
        match anc.find? (fun a => a.kind == SKind.identifier) with
        | some a => .ok a
        | none =>
            .error { code := -32001
                     message := "No valid identifier found at or near position " ++ toString pos }

/-- A raw reference occurrence as handed back by the provider
(absolute file path, 1-based line, start position). -/
structure RawRef where
  file : String
  line : Nat
  startPos : Nat
deriving DecidableEq, Repr

/-- A reference entry as returned by `findRefsForNode`. -/
structure RefEntry where
  file : String
  line : Nat
  position : Nat
deriving DecidableEq, Repr

/-- Embedding of `path.relative(repoRoot, absolutePath)` for the common
case the server relies on: paths under the repo root are stripped of the
root prefix, others are returned unchanged. -/
def relativeToRoot (repoRoot p : String) : String :=
  if (repoRoot ++ "/").isPrefixOf p then p.drop (repoRoot.length + 1) else p

/-- Embedding of the nested for-loops of `findRefsForNode` in
src/server.ts: push every reference of every referenced-symbol group, in
the provider's order. -/
def collectRefs (referencedSymbols : List (List RawRef)) : List RawRef :=
  referencedSymbols.foldl (fun acc grp => grp.foldl (fun acc2 r => acc2 ++ [r]) acc) []

/-- The result object built by `findRefsForNode` in src/server.ts. -/
structure FindRefsResult where
  status : String
  symbolName : String
  references : List RefEntry
deriving DecidableEq, Repr

/-- Embedding of `findRefsForNode` in src/server.ts: flatten the
provider's groups and map each occurrence to
`{file := relative path, line, position}`.  No reordering is applied. -/
def findRefsForNode (repoRoot symbolText : String)
    (referencedSymbols : List (List RawRef)) : FindRefsResult :=
  { status := "success"
    symbolName := symbolText
    references := (collectRefs referencedSymbols).map
      (fun r => { file := relativeToRoot repoRoot r.file
                  line := r.line
                  position := r.startPos }) }

/-- Strict lexicographic order on character lists, used as the byte order
on file paths for the (file, line, offset) sort key. -/
def charListLt : List Char → List Char → Bool
  | [], [] => false
  | [], _ :: _ => true
  | _ :: _, [] => false
  | c :: cs, d :: ds => if c < d then true else if d < c then false else charListLt cs ds

/-- Lexicographic (file, line, offset) comparison on reference entries. -/
def refLe (a b : RefEntry) : Bool :=
  charListLt a.file.data b.file.data ||
    (a.file == b.file &&
      (decide (a.line < b.line) ||
        (a.line == b.line && decide (a.position ≤ b.position))))

/-- Whether a reference list is sorted ascending by (file, line, offset). -/
def sortedRefs : List RefEntry → Bool
  | [] => true
  | [_] => true
  | a :: b :: rest => refLe a b && sortedRefs (b :: rest)

/-- The cache TTL from src/server.ts: five minutes in milliseconds. -/
def CACHE_LIFETIME_MS : Nat := 5 * 60 * 1000

/-- The module-level `projectCache` of src/server.ts together with a
counter supplying the identity of the next `new Project(...)` instance. -/
structure ProjectCache where
  inst : Option Nat
  timestamp : Nat
  nextId : Nat
deriving DecidableEq, Repr

/-- Embedding of `getProject` in src/server.ts: return the cached
instance while it exists and is younger than the TTL, else construct a
fresh instance and reset the timestamp to `now`. -/
def getProject (now : Nat) (s : ProjectCache) : Nat × ProjectCache :=
  match s.inst with
  | some i =>
      if now < s.timestamp + CACHE_LIFETIME_MS then (i, s)
      else (s.nextId, { inst := some s.nextId, timestamp := now, nextId := s.nextId + 1 })
  | none => (s.nextId, { inst := some s.nextId, timestamp := now, nextId := s.nextId + 1 })

theorem foldl_push_eq (grp : List RawRef) (acc : List RawRef) :
    grp.foldl (fun acc2 r => acc2 ++ [r]) acc = acc ++ grp := by
  induction grp generalizing acc with
  | nil => simp
  | cons r rs ih => simp [ih]

theorem collectRefs_aux (groups : List (List RawRef)) (acc : List RawRef) :
    groups.foldl (fun a grp => grp.foldl (fun a2 r => a2 ++ [r]) a) acc
      = acc ++ groups.flatten := by
  induction groups generalizing acc with
  | nil => simp
  | cons g gs ih =>
      rw [List.foldl_cons, foldl_push_eq, ih]
      simp

theorem collectRefs_eq (groups : List (List RawRef)) :
    collectRefs groups = groups.flatten := by
  simpa using collectRefs_aux groups []

/-- C1 (counterexample): when the provider hands back a reference in file
"b.ts" before one in file "a.ts", `findRefsForNode` returns them in that
same order, which is not sorted ascending by (file, line, offset): the
system does not impose the sorted order the claim states. -/
theorem findRefsForNode_not_sorted :
    (findRefsForNode "root" "x"
        [[{ file := "b.ts", line := 1, startPos := 0 }],
         [{ file := "a.ts", line := 1, startPos := 0 }]]).references
      = [{ file := "b.ts", line := 1, position := 0 },
         { file := "a.ts", line := 1, position := 0 }] ∧
    sortedRefs (findRefsForNode "root" "x"
        [[{ file := "b.ts", line := 1, startPos := 0 }],
         [{ file := "a.ts", line := 1, startPos := 0 }]]).references = false := by
  constructor
  · rfl
  · rfl

/-- C1 (amended): for every symbol, `findRefsForNode` returns the
Reference Entries in the provider's native order — the groups flattened
in order, each occurrence mapped to (file relative to the repo root,
line, offset) — and imposes no sorting of its own. -/
theorem findRefsForNode_provider_order (repoRoot symbolText : String)
    (referencedSymbols : List (List RawRef)) :
    (findRefsForNode repoRoot symbolText referencedSymbols).references
      = referencedSymbols.flatten.map
          (fun r => { file := relativeToRoot repoRoot r.file
                      line := r.line
                      position := r.startPos }) ∧
    (findRefsForNode repoRoot symbolText referencedSymbols).status = "success" ∧
    (findRefsForNode repoRoot symbolText referencedSymbols).symbolName = symbolText := by
  refine ⟨?_, rfl, rfl⟩
  simp [findRefsForNode, collectRefs_eq]

/-- C3: a `getProject` call within the TTL window returns the cached
instance and leaves the cache unchanged — so two calls within the window
return the identical instance — while a call at or after the expiry
instant returns a different instance, installs it, and resets the
creation timestamp to the current time. -/
theorem getProject_cache_identity (s : ProjectCache) (i : Nat) (now1 now2 now3 : Nat)
    (hinst : s.inst = some i) (hfresh : i < s.nextId)
    (h1 : now1 < s.timestamp + CACHE_LIFETIME_MS)
    (h2 : now2 < s.timestamp + CACHE_LIFETIME_MS)
    (h3 : s.timestamp + CACHE_LIFETIME_MS ≤ now3) :
    (getProject now1 s).1 = i ∧
    (getProject now2 (getProject now1 s).2).1 = i ∧
    (getProject now3 s).1 ≠ i ∧
    (getProject now3 s).2.inst = some (getProject now3 s).1 ∧
    (getProject now3 s).2.timestamp = now3 := by
  have e1 : getProject now1 s = (i, s) := by
    unfold getProject
    rw [hinst]
    simp [h1]
  have e3 : getProject now3 s
      = (s.nextId, { inst := some s.nextId, timestamp := now3, nextId := s.nextId + 1 }) := by
    unfold getProject
    rw [hinst]
    simp [Nat.not_lt.mpr h3]
  refine ⟨by rw [e1], ?_, ?_, ?_, ?_⟩
  · rw [e1]
    unfold getProject
    rw [hinst]
    simp [h2]
  · rw [e3]
    omega
  · rw [e3]
  · rw [e3]

/-- Concrete instantiation of the cache-identity theorem: cache holding
instance 0 created at time 0, hits at times 0 and 1, expiry at 300000. -/
theorem getProject_cache_identity_witness :
    (getProject 0 { inst := some 0, timestamp := 0, nextId := 1 }).1 = 0 ∧
    (getProject 1 (getProject 0 { inst := some 0, timestamp := 0, nextId := 1 }).2).1 = 0 ∧
    (getProject 300000 { inst := some 0, timestamp := 0, nextId := 1 }).1 ≠ 0 ∧
    (getProject 300000 { inst := some 0, timestamp := 0, nextId := 1 }).2.inst
      = some (getProject 300000 { inst := some 0, timestamp := 0, nextId := 1 }).1 ∧
    (getProject 300000 { inst := some 0, timestamp := 0, nextId := 1 }).2.timestamp = 300000 :=
  getProject_cache_identity { inst := some 0, timestamp := 0, nextId := 1 } 0 0 1 300000
    rfl (by decide) (by decide) (by decide) (by decide)

/-- The ancestor-chain relation: each listed node is the parent of the
one before it (the resolved node for the head of the list). -/
def ancestorChain : Tree → List Tree → Prop
  | _, [] => True
  | n, a :: rest => n ∈ a.children ∧ ancestorChain a rest

theorem descendAux_spec (pos : Nat) (t : Tree) (anc : List Tree)
    (hc : coversB t pos = true) (hch : ancestorChain t anc) (hne : anc ≠ []) :
    coversB (descendAux pos t anc).1 pos = true ∧
    childAtPos (descendAux pos t anc).1 pos = none ∧
    ancestorChain (descendAux pos t anc).1 (descendAux pos t anc).2 ∧
    (descendAux pos t anc).2 ≠ [] ∧
    (descendAux pos t anc).2.getLast? = anc.getLast? := by
  rw [descendAux]
  split
  next h => exact ⟨hc, h, hch, hne, rfl⟩
  next c h =>
    have hc2 := childAtPos_covers h
    have hm := childAtPos_mem h
    have hrec := descendAux_spec pos c (t :: anc) hc2 ⟨hm, hch⟩ (by simp)
    obtain ⟨x, xs, rfl⟩ : ∃ x xs, anc = x :: xs := by
      cases anc with
      | nil => exact absurd rfl hne
      | cons x xs => exact ⟨x, xs, rfl⟩
    refine ⟨hrec.1, hrec.2.1, hrec.2.2.1, hrec.2.2.2.1, ?_⟩
    rw [hrec.2.2.2.2]
    rfl
termination_by sizeOf t
decreasing_by
  have h1 := List.sizeOf_lt_of_mem hm
  have h2 := Tree.sizeOf_children_lt t
  omega

theorem getDescendantAtPos_spec (root : Tree) (pos : Nat) (n : Tree) (anc : List Tree)
    (h : getDescendantAtPos root pos = some (n, anc)) :
    coversB n pos = true ∧
    childAtPos n pos = none ∧
    ancestorChain n anc ∧
    anc.getLast? = some root := by
  unfold getDescendantAtPos at h
  split at h
  · exact absurd h (by simp)
  next c hc =>
    have hspec := descendAux_spec pos c [root] (childAtPos_covers hc)
      ⟨childAtPos_mem hc, trivial⟩ (by simp)
    have hpair : descendAux pos c [root] = (n, anc) := by
      injection h with h2
    rw [hpair] at hspec
    exact ⟨hspec.1, hspec.2.1, hspec.2.2.1, hspec.2.2.2.2⟩

theorem childAtPos_none_no_child {n : Tree} {pos : Nat}
    (hc : coversB n pos = true) (h : childAtPos n pos = none) :
    n.children.all (fun c => !coversB c pos) = true := by
  unfold coversB at hc
  simp at hc
  unfold childAtPos at h
  split at h
  next hout => omega
  next =>
    rw [List.find?_eq_none] at h
    rw [List.all_eq_true]
    intro c hcmem
    simp [h c hcmem]

/-- C4: for every (file, offset) input, position resolution returns the
deepest AST node covering the offset when that node is an identifier;
otherwise the first identifier walking strictly upward through the
ancestor chain; and fails with a -32001 error both when no node covers
the offset and when no identifier exists on the ancestor chain.  The
node handed to the identifier check really is deepest (it covers the
offset and none of its children do) and the chain really consists of its
ancestors up to the file root. -/
theorem resolveByPosition_characterization (t : Tree) (pos : Nat) :
    match getDescendantAtPos t pos with
    | none =>
        resolveAtPosition t pos
          = .error { code := -32001
                     message := "No node found at position " ++ toString pos }
    | some (n, anc) =>
        coversB n pos = true ∧
        n.children.all (fun c => !coversB c pos) = true ∧
        ancestorChain n anc ∧
        anc.getLast? = some t ∧
        resolveAtPosition t pos
          = (if n.kind = SKind.identifier then .ok n
             else
               match anc.find? (fun a => a.kind == SKind.identifier) with
               | some a => .ok a
               | none =>
                   .error { code := -32001
                            message := "No valid identifier found at or near position "
                              ++ toString pos }) := by
  cases hd : getDescendantAtPos t pos with
  | none => simp [resolveAtPosition, hd]
  | some pr =>
      obtain ⟨n, anc⟩ := pr
      have hs := getDescendantAtPos_spec t pos n anc hd
      refine ⟨hs.1, childAtPos_none_no_child hs.1 hs.2.1, hs.2.2.1, hs.2.2.2, ?_⟩
      simp only [resolveAtPosition, hd]

/-- The `params` object of a tools/call request: dispatch only reads the
tool name (arguments default to the empty object). -/
structure McpParams where
  name : Option String
deriving DecidableEq, Repr

/-- The JSON-RPC request envelope fields read by the /mcp handler;
`none` models an absent field. -/
structure McpRequest where
  jsonrpc : Option String
  method : Option String
  params : Option McpParams
deriving DecidableEq, Repr

/-- An error thrown inside the handler: an ad hoc object with optional
`code` and `message` fields. -/
structure ThrownErr where
  code : Option Int
  message : Option String
deriving DecidableEq, Repr

/-- The response envelope as far as dispatch is concerned: the
tools/list result, a wrapped tools/call result, or an error envelope. -/
inductive McpResponse : Type where
  | toolsList : List (String × String) → McpResponse
  | callResult : String → McpResponse
  | err : Int → String → McpResponse
deriving DecidableEq, Repr

/-- JavaScript truthiness of an optional string: an absent value and the
empty string are falsy. -/
def truthyStr : Option String → Bool
  | none => false
  | some s => !s.isEmpty

/-- JavaScript string interpolation of a possibly-undefined value. -/
def jsShow (o : Option String) : String := o.getD "undefined"

/-- The tool registry of src/server.ts: only find_references is
registered. -/
def toolRegistry : List String := ["find_references"]

/-- The catch clause's `error.code || -32603`: a missing or zero code
falls back to the internal-error code. -/
def errCode (e : ThrownErr) : Int :=
  match e.code with
  | some c => if c = 0 then -32603 else c
  | none => -32603

/-- The catch clause's `error.message || 'Internal Error'`. -/
def errMessage (e : ThrownErr) : String := e.message.getD "Internal Error"

/-- Embedding of the /mcp POST handler in src/server.ts: envelope check
(-32600), then dispatch on the method — tools/list dumps the registry,
tools/call looks the tool up (throwing -32601 when absent) and runs it,
any other method throws -32601; the surrounding catch maps any thrown
error to an error envelope.  `runTool` abstracts the body of the one
registered tool, which may itself throw. -/
def handleMcp (runTool : String → Except ThrownErr String) (req : McpRequest) : McpResponse :=
  if req.jsonrpc != some "2.0" || !truthyStr req.method then
    .err (-32600) "Invalid Request"
  else
    let m := req.method.getD ""
    if m == "tools/list" then
      .toolsList [("find_references", "Real TS symbol lookup (V0.3)")]
    else if m == "tools/call" then
      let toolName := req.params.bind McpParams.name
      if !truthyStr toolName || !(toolRegistry.contains (toolName.getD "")) then
        .err (-32601) ("Tool not found: " ++ jsShow toolName)
      else
        match runTool (toolName.getD "") with
        | .ok r => .callResult r
        | .error e => .err (errCode e) (errMessage e)
    else
      .err (-32601) ("Method not found: " ++ m)

/-- A file-keyed association list: both the in-memory model and the
persistent storage map file paths to parsed trees. -/
abbrev FileMap := List (String × Tree)

/-- Replace the value bound to a key, appending the binding if the key
is absent. -/
def setEntry (p : String) (t : Tree) (l : FileMap) : FileMap :=
  if l.any (fun e => e.1 == p) then
    l.map (fun e => if e.1 == p then (p, t) else e)
  else l ++ [(p, t)]

/-- The world the skills module touches: the module-level Project
instance (its identity `projectGen` and its in-memory file `model`),
the persistent `storage`, and the set of paths on which raw file-system
writes fail (modelling disk errors). -/
structure St where
  projectGen : Nat
  model : FileMap
  storage : FileMap
  ioFailPaths : List String

/-- The provider (ts-morph) operations the skills delegate to:
`refGroups` is `Identifier.findReferences` reduced to the referencing
file paths per referenced-symbol group, `renameAll` is
`Identifier.rename` rewriting every reference across the model,
`format` is `SourceFile.formatText`, `diagnostics` is
`getPreEmitDiagnostics` rendered to text lines. -/
structure Provider where
  refGroups : Tree → List (List String)
  renameAll : String → String → FileMap → FileMap
  format : Tree → Tree
  diagnostics : Tree → List String

/-- Embedding of ts-morph `Project.addSourceFileAtPath`: returns the
already-added source file unchanged when the path is in the project
(no refresh), else reads it from storage into the model, and throws
when the file does not exist. -/
def addSourceFileAtPath (st : St) (p : String) : St × Except String Tree :=
  match st.model.lookup p with
  | some t => (st, .ok t)
  | none =>
      match st.storage.lookup p with
      | some t => ({ st with model := setEntry p t st.model }, .ok t)
      | none => (st, .error ("could not find source file: " ++ p))

/-- Embedding of ts-morph `SourceFile.refreshFromFileSystem`: re-read
the file from storage into the model. -/
def refreshFromFileSystem (st : St) (p : String) : St × Except String Tree :=
  match st.storage.lookup p with
  | some t => ({ st with model := setEntry p t st.model }, .ok t)
  | none => (st, .error ("file not found: " ++ p))

/-- Embedding of `fs.mkdir` with `recursive: true`: idempotent, failing
only on an injected I/O error for that path. -/
def fsMkdir (st : St) (dir : String) : Except String Unit :=
  if st.ioFailPaths.contains dir then
    .error ("EACCES: permission denied, mkdir " ++ dir)
  else .ok ()

/-- Embedding of `SourceFile.save`: persist the given tree for the path
to storage, failing on an injected I/O error for that path. -/
def saveFile (st : St) (p : String) (t : Tree) : St × Except String Unit :=
  if st.ioFailPaths.contains p then (st, .error ("EIO: i/o error, write " ++ p))
  else ({ st with storage := setEntry p t st.storage }, .ok ())

def saveAllAux (st : St) : FileMap → St × Except String Unit
  | [] => (st, .ok ())
  | (p, t) :: rest =>
      match saveFile st p t with
      | (st1, .ok _) => saveAllAux st1 rest
      | (st1, .error m) => (st1, .error m)

/-- Embedding of `Project.save`: persist every file of the model in
order, stopping at the first failing write (files saved before the
failure stay saved). -/
def saveAll (st : St) : St × Except String Unit := saveAllAux st st.model

/-- Node `path.dirname` for plain slash-separated paths. -/
def dirname (p : String) : String :=
  let parts := p.splitOn "/"
  if parts.length ≤ 1 then "." else String.intercalate "/" parts.dropLast

def identNotFoundMsg (symbolName filePath : String) : String :=
  "ERROR: Could not find any identifier with name \"" ++ symbolName ++ "\" in " ++ filePath

def noImportsMsg (oldPath filePath : String) : String :=
  "INFO: No imports matching \"" ++ oldPath ++ "\" were found in " ++ filePath ++ "."

def updatedImportsMsg (changes : Nat) (filePath : String) : String :=
  "SUCCESS: Updated " ++ toString changes ++ " import(s) in " ++ filePath ++ "."

def renamedMsg (symbolName newName : String) : String :=
  "SUCCESS: Renamed \"" ++ symbolName ++ "\" to \"" ++ newName ++ "\" across all files."

/-- Embedding of ts-morph `Node.getFirstDescendant` restricted to a
forest: the first node, in depth-first pre-order, satisfying the
predicate. -/
def firstInForest (p : Tree → Bool) : List Tree → Option Tree
  | [] => none
  | c :: cs =>
      if p c then some c
      else
        match firstInForest p c.children with
        | some r => some r
        | none => firstInForest p cs
termination_by l => sizeOf l
decreasing_by
  all_goals simp
  all_goals (have hlt := Tree.sizeOf_children_lt c; omega)

/-- ts-morph `Node.getFirstDescendant`: descendants of the node, in
depth-first pre-order. -/
def getFirstDescendant (t : Tree) (p : Tree → Bool) : Option Tree :=
  firstInForest p t.children

/-- The descendants of the forest in depth-first pre-order, as a list. -/
def preorderForest : List Tree → List Tree
  | [] => []
  | c :: cs => c :: (preorderForest c.children ++ preorderForest cs)
termination_by l => sizeOf l
decreasing_by
  all_goals simp
  all_goals (have hlt := Tree.sizeOf_children_lt c; omega)

/-- Embedding of `findIdentifierNode` in the skills module: first
descendant whose kind is Identifier and whose text equals the symbol
name, with the source's redundant identifier recheck before returning. -/
def findIdentifierNode (sourceFile : Tree) (symbolName : String) : Option Tree :=
  match getFirstDescendant sourceFile
      (fun n => n.kind == SKind.identifier && n.text == symbolName) with
  | some n => if n.kind == SKind.identifier then some n else none
  | none => none

/-- JavaScript `[...new Set(xs)]`: deduplicate keeping first
occurrences in order. -/
def dedupFirst : List String → List String
  | [] => []
  | x :: xs => x :: dedupFirst (xs.filter (fun y => y != x))
termination_by l => l.length
decreasing_by
  all_goals simp
  all_goals (have hlt := List.length_filter_le (fun y => y != x) xs; omega)

/-- The success message of `findAllReferences` for a resolved
identifier: reference count and deduplicated referencing file list. -/
def foundRefsMsg (prov : Provider) (ident : Tree) : String :=
  let refPaths := (prov.refGroups ident).flatten
  "SUCCESS: Found " ++ toString refPaths.length ++ " references in files: "
    ++ String.intercalate ", " (dedupFirst refPaths)

/-- Embedding of `checkTypeErrors` in the skills module: add the file,
refresh it from storage, then render the provider's pre-emit
diagnostics (no try/catch: a missing file throws). -/
def checkTypeErrors (prov : Provider) (st : St) (filePath : String) :
    St × Except String String :=
  match addSourceFileAtPath st filePath with
  | (st1, .error m) => (st1, .error m)
  | (st1, .ok _) =>
      match refreshFromFileSystem st1 filePath with
      | (st2, .error m) => (st2, .error m)
      | (st2, .ok sf) =>
          let ds := prov.diagnostics sf
          if ds.isEmpty then (st2, .ok "SUCCESS: No type errors found.")
          else (st2, .ok ("ERROR: Type errors found.\n" ++ String.intercalate "\n" ds))

/-- Embedding of `safeWriteFile`: mkdir -p on the parent directory,
create-or-overwrite the file in the model, format it, save it,
re-register it; the whole body sits in a try/catch that converts any
failure into an ERROR string return. -/
def safeWriteFile (prov : Provider) (st : St) (filePath : String) (content : Tree) :
    St × Except String String :=
  match fsMkdir st (dirname filePath) with
  | .error m => (st, .ok ("ERROR: Failed to write file: " ++ m))
  | .ok _ =>
      let st1 := { st with model := setEntry filePath content st.model }
      let formatted := prov.format content
      let st2 := { st1 with model := setEntry filePath formatted st1.model }
      match saveFile st2 filePath formatted with
      | (st3, .error m) => (st3, .ok ("ERROR: Failed to write file: " ++ m))
      | (st3, .ok _) =>
          match addSourceFileAtPath st3 filePath with
          | (st4, .error m) => (st4, .ok ("ERROR: Failed to write file: " ++ m))
          | (st4, .ok _) =>
              (st4, .ok ("SUCCESS: File written and formatted at " ++ filePath))

/-- Embedding of `safeMkdir`: recursive directory creation inside a
try/catch converting any failure into an ERROR string return. -/
def safeMkdir (st : St) (dirPath : String) : St × Except String String :=
  match fsMkdir st dirPath with
  | .error m => (st, .ok ("ERROR: Failed to create directory: " ++ m))
  | .ok _ => (st, .ok ("SUCCESS: Directory created at " ++ dirPath))

/-- Embedding of `findAllReferences` in the skills module: add the file
(without refreshing an already-loaded one), resolve the name, and
report the provider's reference groups (no try/catch: a missing file
throws). -/
def findAllReferences (prov : Provider) (st : St) (filePath symbolName : String) :
    St × Except String String :=
  match addSourceFileAtPath st filePath with
  | (st1, .error m) => (st1, .error m)
  | (st1, .ok sf) =>
      match findIdentifierNode sf symbolName with
      | none => (st1, .ok (identNotFoundMsg symbolName filePath))
      | some ident => (st1, .ok (foundRefsMsg prov ident))

/-- The post-resolution phase of `safeRenameSymbol`: the provider
rename rewrites every reference across the model, then `project.save()`
persists the files. -/
def renameResolvedPhase (prov : Provider) (st : St) (symbolName newName : String) :
    St × Except String String :=
  let st1 := { st with model := prov.renameAll symbolName newName st.model }
  match saveAll st1 with
  | (st2, .error m) => (st2, .error m)
  | (st2, .ok _) => (st2, .ok (renamedMsg symbolName newName))

/-- Embedding of `safeRenameSymbol`: add the file, resolve the old
name, and only on success rename and save (no try/catch: a missing
file or failing save throws). -/
def safeRenameSymbol (prov : Provider) (st : St) (filePath symbolName newName : String) :
    St × Except String String :=
  match addSourceFileAtPath st filePath with
  | (st1, .error m) => (st1, .error m)
  | (st1, .ok sf) =>
      match findIdentifierNode sf symbolName with
      | none => (st1, .ok (identNotFoundMsg symbolName filePath))
      | some _ => renameResolvedPhase prov st1 symbolName newName

def Tree.setText (t : Tree) (tx : String) : Tree :=
  match t with
  | .mk k _ s e cs => .mk k tx s e cs

/-- One step of the forEach over `getImportDeclarations`: rewrite a
declaration node whose module specifier equals the old path, counting
the change. -/
def updateImportDecl (oldPath newPath : String) (c : Tree) : Tree × Nat :=
  if c.kind == SKind.importDecl && c.text == oldPath then (c.setText newPath, 1)
  else (c, 0)

def Tree.setChildren (t : Tree) (cs : List Tree) : Tree :=
  match t with
  | .mk k tx s e _ => .mk k tx s e cs

/-- The forEach of `safeUpdateImport` over the file's import
declarations (the top-level children of kind importDecl): rewrite every
matching specifier and count the changes. -/
def updateImports (t : Tree) (oldPath newPath : String) : Tree × Nat :=
  let results := t.children.map (updateImportDecl oldPath newPath)
  (t.setChildren (results.map Prod.fst), (results.map Prod.snd).sum)

/-- Embedding of `safeUpdateImport`: add the file, rewrite its matching
module specifiers in the model, and save the file only when the change
count is positive, else report the INFO no-op (no try/catch: a missing
file or failing save throws). -/
def safeUpdateImport (st : St) (filePath oldPath newPath : String) :
    St × Except String String :=
  match addSourceFileAtPath st filePath with
  | (st1, .error m) => (st1, .error m)
  | (st1, .ok sf) =>
      let res := updateImports sf oldPath newPath
      let st2 := { st1 with model := setEntry filePath res.1 st1.model }
      if res.2 > 0 then
        match saveFile st2 filePath res.1 with
        | (st3, .error m) => (st3, .error m)
        | (st3, .ok _) => (st3, .ok (updatedImportsMsg res.2 filePath))
      else (st2, .ok (noImportsMsg oldPath filePath))

/-- One invocation of a skill operation of the skills module. -/
inductive SkillCall : Type where
  | checkTypes : String → SkillCall
  | writeFile : String → Tree → SkillCall
  | makeDir : String → SkillCall
  | findRefs : String → String → SkillCall
  | renameSym : String → String → String → SkillCall
  | updateImp : String → String → String → SkillCall

def runSkill (prov : Provider) (st : St) : SkillCall → St × Except String String
  | .checkTypes p => checkTypeErrors prov st p
  | .writeFile p c => safeWriteFile prov st p c
  | .makeDir d => safeMkdir st d
  | .findRefs p n => findAllReferences prov st p n
  | .renameSym p o n => safeRenameSymbol prov st p o n
  | .updateImp p o n => safeUpdateImport st p o n

/-- Run a sequence of skill calls, threading the module state. -/
def runSkills (prov : Provider) (st : St) (calls : List SkillCall) : St :=
  calls.foldl (fun s c => (runSkill prov s c).1) st

/-- Whether an operation returned a value (rather than letting an
exception escape). -/
def isReturn : Except String String → Bool
  | .ok _ => true
  | .error _ => false

/-- C8 (counterexample): a tools/call request naming a tool absent from
the registry, but carried in an envelope whose jsonrpc field is "1.0",
is answered with code -32600 by the envelope check, not with -32601: the
claimed -32601 response does not hold for every request with an
unregistered tool name. -/
theorem handleMcp_unknown_tool_countereg :
    handleMcp (fun _ => .ok "r")
        { jsonrpc := some "1.0", method := some "tools/call"
          params := some { name := some "nonexistent" } }
      = .err (-32600) "Invalid Request" ∧ ((-32600 : Int) ≠ -32601) :=
  ⟨rfl, by decide⟩

/-- C8 (amended): for every request that passes the envelope validation
(jsonrpc exactly "2.0" and a present, non-empty method): a tools/call
whose params name is missing, empty, or absent from the registry is
answered with error code -32601, and any method other than tools/list
and tools/call is answered with error code -32601. -/
theorem handleMcp_unknown_codes (runTool : String → Except ThrownErr String)
    (req : McpRequest)
    (hj : req.jsonrpc = some "2.0") (hm : truthyStr req.method = true) :
    (req.method.getD "" ≠ "tools/list" → req.method.getD "" ≠ "tools/call" →
      handleMcp runTool req
        = .err (-32601) ("Method not found: " ++ req.method.getD "")) ∧
    (req.method.getD "" = "tools/call" →
      (truthyStr (req.params.bind McpParams.name) = false ∨
        toolRegistry.contains ((req.params.bind McpParams.name).getD "") = false) →
      handleMcp runTool req
        = .err (-32601) ("Tool not found: " ++ jsShow (req.params.bind McpParams.name))) := by
  constructor
  · intro h1 h2
    unfold handleMcp
    rw [hj]
    simp [hm, h1, h2]
  · intro h1 h2
    unfold handleMcp
    rw [hj]
    rcases h2 with h2 | h2
    · simp [hm, h1, h2]
    · simp [hm, h1, h2]
      intro htr hmem
      exact absurd hmem (by simpa using h2)

/-- Concrete instantiation of the amended dispatcher theorem: an unknown
method "bogus" and an unknown tool "nonexistent", each inside a valid
envelope, are both answered with -32601. -/
theorem handleMcp_unknown_codes_witness :
    handleMcp (fun _ => .ok "r")
        { jsonrpc := some "2.0", method := some "bogus", params := none }
      = .err (-32601) ("Method not found: " ++ (some "bogus" : Option String).getD "") ∧
    handleMcp (fun _ => .ok "r")
        { jsonrpc := some "2.0", method := some "tools/call"
          params := some { name := some "nonexistent" } }
      = .err (-32601)
          ("Tool not found: "
            ++ jsShow ((some { name := some "nonexistent" } : Option McpParams).bind
                McpParams.name)) :=
  ⟨(handleMcp_unknown_codes (fun _ => .ok "r")
      { jsonrpc := some "2.0", method := some "bogus", params := none } rfl rfl).1
      (by decide) (by decide),
   (handleMcp_unknown_codes (fun _ => .ok "r")
      { jsonrpc := some "2.0", method := some "tools/call"
        params := some { name := some "nonexistent" } } rfl rfl).2
      rfl (Or.inr (by decide))⟩

theorem addSourceFileAtPath_frame (st : St) (p : String) :
    (addSourceFileAtPath st p).1.storage = st.storage ∧
    (addSourceFileAtPath st p).1.projectGen = st.projectGen ∧
    (addSourceFileAtPath st p).1.ioFailPaths = st.ioFailPaths := by
  unfold addSourceFileAtPath
  cases h1 : st.model.lookup p
  · cases h2 : st.storage.lookup p <;> exact ⟨rfl, rfl, rfl⟩
  · exact ⟨rfl, rfl, rfl⟩

theorem refreshFromFileSystem_frame (st : St) (p : String) :
    (refreshFromFileSystem st p).1.storage = st.storage ∧
    (refreshFromFileSystem st p).1.projectGen = st.projectGen := by
  unfold refreshFromFileSystem
  cases h : st.storage.lookup p <;> exact ⟨rfl, rfl⟩

theorem saveFile_gen (st : St) (p : String) (t : Tree) :
    (saveFile st p t).1.projectGen = st.projectGen := by
  unfold saveFile
  split <;> rfl

theorem saveAllAux_gen (st : St) (l : FileMap) :
    (saveAllAux st l).1.projectGen = st.projectGen := by
  induction l generalizing st with
  | nil => rfl
  | cons e rest ih =>
      obtain ⟨p, t⟩ := e
      have g := saveFile_gen st p t
      unfold saveAllAux
      rcases h : saveFile st p t with ⟨st1, r⟩
      rw [h] at g
      cases r with
      | ok u => simpa [ih st1] using g
      | error m => simpa using g

theorem checkTypeErrors_gen (prov : Provider) (st : St) (filePath : String) :
    (checkTypeErrors prov st filePath).1.projectGen = st.projectGen := by
  have g1 := (addSourceFileAtPath_frame st filePath).2.1
  rcases h1 : addSourceFileAtPath st filePath with ⟨st1, r1⟩
  rw [h1] at g1
  unfold checkTypeErrors
  rw [h1]
  cases r1 with
  | error m => exact g1
  | ok sf =>
      dsimp only
      have g2 := (refreshFromFileSystem_frame st1 filePath).2
      rcases h2 : refreshFromFileSystem st1 filePath with ⟨st2, r2⟩
      rw [h2] at g2
      try rw [h2]
      cases r2 with
      | error m => exact g2.trans g1
      | ok sf2 =>
          dsimp only
          split <;> exact g2.trans g1

theorem safeWriteFile_gen (prov : Provider) (st : St) (filePath : String) (content : Tree) :
    (safeWriteFile prov st filePath content).1.projectGen = st.projectGen := by
  unfold safeWriteFile
  cases h1 : fsMkdir st (dirname filePath) with
  | error m => rfl
  | ok u =>
      dsimp only
      set st2 : St :=
        { st with
            model := setEntry filePath (prov.format content)
              (setEntry filePath content st.model) } with hst2
      have g3 := saveFile_gen st2 filePath (prov.format content)
      rcases h3 : saveFile st2 filePath (prov.format content) with ⟨st3, r3⟩
      rw [h3] at g3
      try rw [h3]
      cases r3 with
      | error m => exact g3
      | ok u2 =>
          dsimp only
          have g4 := (addSourceFileAtPath_frame st3 filePath).2.1
          rcases h4 : addSourceFileAtPath st3 filePath with ⟨st4, r4⟩
          rw [h4] at g4
          try rw [h4]
          cases r4 with
          | error m => exact g4.trans g3
          | ok sf => exact g4.trans g3

theorem safeMkdir_gen (st : St) (dirPath : String) :
    (safeMkdir st dirPath).1.projectGen = st.projectGen := by
  unfold safeMkdir
  cases h : fsMkdir st dirPath <;> rfl

theorem findAllReferences_gen (prov : Provider) (st : St) (filePath symbolName : String) :
    (findAllReferences prov st filePath symbolName).1.projectGen = st.projectGen := by
  have g1 := (addSourceFileAtPath_frame st filePath).2.1
  rcases h1 : addSourceFileAtPath st filePath with ⟨st1, r1⟩
  rw [h1] at g1
  unfold findAllReferences
  rw [h1]
  cases r1 with
  | error m => exact g1
  | ok sf =>
      dsimp only
      cases findIdentifierNode sf symbolName <;> exact g1

theorem renameResolvedPhase_gen (prov : Provider) (st : St) (symbolName newName : String) :
    (renameResolvedPhase prov st symbolName newName).1.projectGen = st.projectGen := by
  unfold renameResolvedPhase
  dsimp only
  set st1 : St := { st with model := prov.renameAll symbolName newName st.model } with hst1
  have g := saveAllAux_gen st1 st1.model
  rcases h : saveAll st1 with ⟨st2, r⟩
  rw [saveAll] at h
  rw [h] at g
  try rw [show saveAll st1 = (st2, r) from h]
  cases r with
  | ok u => exact g
  | error m => exact g

theorem safeRenameSymbol_gen (prov : Provider) (st : St) (filePath symbolName newName : String) :
    (safeRenameSymbol prov st filePath symbolName newName).1.projectGen = st.projectGen := by
  have g1 := (addSourceFileAtPath_frame st filePath).2.1
  rcases h1 : addSourceFileAtPath st filePath with ⟨st1, r1⟩
  rw [h1] at g1
  unfold safeRenameSymbol
  rw [h1]
  cases r1 with
  | error m => exact g1
  | ok sf =>
      dsimp only
      cases findIdentifierNode sf symbolName with
      | none => exact g1
      | some ident =>
          exact (renameResolvedPhase_gen prov st1 symbolName newName).trans g1

theorem safeUpdateImport_gen (st : St) (filePath oldPath newPath : String) :
    (safeUpdateImport st filePath oldPath newPath).1.projectGen = st.projectGen := by
  have g1 := (addSourceFileAtPath_frame st filePath).2.1
  rcases h1 : addSourceFileAtPath st filePath with ⟨st1, r1⟩
  rw [h1] at g1
  unfold safeUpdateImport
  rw [h1]
  cases r1 with
  | error m => exact g1
  | ok sf =>
      dsimp only
      set st2 : St :=
        { st1 with
            model := setEntry filePath (updateImports sf oldPath newPath).1 st1.model } with hst2
      have g3 := saveFile_gen st2 filePath (updateImports sf oldPath newPath).1
      rcases h3 : saveFile st2 filePath (updateImports sf oldPath newPath).1 with ⟨st3, r3⟩
      rw [h3] at g3
      split
      · try rw [h3]
        cases r3 with
        | error m => exact g3.trans g1
        | ok u => exact g3.trans g1
      · exact g1

/-- C10: the skill operations all run against the single module-level
Project instance: across every sequence of skill calls, starting from
any module state, the project identity `projectGen` observed by and left
behind by the calls is the initial one — no call constructs or installs
a replacement instance, and none of them consults a clock, in contrast
to the server's TTL-guarded `getProject`, which is the only place a new
instance is installed. -/
theorem skills_single_project (prov : Provider) (st : St) (calls : List SkillCall) :
    (runSkills prov st calls).projectGen = st.projectGen := by
  induction calls generalizing st with
  | nil => rfl
  | cons c rest ih =>
      have hstep : runSkills prov st (c :: rest) = runSkills prov (runSkill prov st c).1 rest := rfl
      have hgen : (runSkill prov st c).1.projectGen = st.projectGen := by
        cases c with
        | checkTypes p => exact checkTypeErrors_gen prov st p
        | writeFile p t => exact safeWriteFile_gen prov st p t
        | makeDir d => exact safeMkdir_gen st d
        | findRefs p n => exact findAllReferences_gen prov st p n
        | renameSym p o n => exact safeRenameSymbol_gen prov st p o n
        | updateImp p o n => exact safeUpdateImport_gen st p o n
      rw [hstep, ih, hgen]

/-- C2 (counterexample): renameSymbol on a file that exists neither in
the model nor on storage lets the provider's file-not-found exception
escape the operation boundary instead of reporting an error value. -/
theorem safeRenameSymbol_throws :
    (safeRenameSymbol
        ⟨fun _ => [], fun _ _ m => m, fun t => t, fun _ => []⟩
        ⟨0, [], [], []⟩ "missing.ts" "a" "b").2
      = .error ("could not find source file: " ++ "missing.ts") := rfl

/-- C2 (amended): writeFile and makeDirectory catch every failure and
report it as an ERROR string value, never letting an exception
propagate past the operation boundary; renameSymbol and updateImport
have no such guard, and failures there (for example a missing target
file) propagate as exceptions. -/
theorem mutation_error_boundaries :
    (∀ (prov : Provider) (st : St) (p : String) (c : Tree),
        isReturn (safeWriteFile prov st p c).2 = true) ∧
    (∀ (st : St) (d : String), isReturn (safeMkdir st d).2 = true) ∧
    (∃ (prov : Provider) (st : St) (p o n : String),
        isReturn (safeRenameSymbol prov st p o n).2 = false) ∧
    (∃ (st : St) (p o n : String), isReturn (safeUpdateImport st p o n).2 = false) := by
  refine ⟨?_, ?_, ?_, ?_⟩
  · intro prov st p c
    unfold safeWriteFile
    split
    · rfl
    · dsimp only
      split
      · rfl
      · try dsimp only
        split <;> rfl
  · intro st d
    unfold safeMkdir
    split <;> rfl
  · exact ⟨⟨fun _ => [], fun _ _ m => m, fun t => t, fun _ => []⟩,
      ⟨0, [], [], []⟩, "missing.ts", "a", "b", rfl⟩
  · exact ⟨⟨0, [], [], []⟩, "missing.ts", "./a", "./b", rfl⟩

theorem firstInForest_eq_preorder (p : Tree → Bool) : ∀ l : List Tree,
    firstInForest p l = (preorderForest l).find? p
  | [] => by
      simp only [firstInForest, preorderForest]
      rfl
  | c :: cs => by
      have ih1 := firstInForest_eq_preorder p c.children
      have ih2 := firstInForest_eq_preorder p cs
      simp only [firstInForest, preorderForest]
      cases hp : p c with
      | true => simp [List.find?_cons, hp]
      | false =>
          rw [ih1, ih2]
          simp [List.find?_cons, hp, List.find?_append]
          cases (preorderForest c.children).find? p <;> simp [Option.or]
termination_by l => sizeOf l
decreasing_by
  all_goals simp
  all_goals (have hlt := Tree.sizeOf_children_lt c; omega)

theorem findIdentifierNode_eq (sf : Tree) (symbolName : String) :
    findIdentifierNode sf symbolName
      = (preorderForest sf.children).find?
          (fun n => n.kind == SKind.identifier && n.text == symbolName) := by
  unfold findIdentifierNode getFirstDescendant
  rw [firstInForest_eq_preorder]
  cases h : (preorderForest sf.children).find?
      (fun n => n.kind == SKind.identifier && n.text == symbolName) with
  | none => rfl
  | some n =>
      have hp := List.find?_some h
      simp only [Bool.and_eq_true, beq_iff_eq] at hp
      simp [hp.1]

/-- C5: name resolution returns the first descendant, in depth-first
pre-order, that is an identifier whose text equals the name; and
findAllReferences and renameSymbol use it identically — both return the
same not-found error exactly when it yields nothing, and both proceed
with the resolved identifier otherwise. -/
theorem resolveByName_characterization (prov : Provider) (st st1 : St)
    (filePath symbolName newName : String) (sf : Tree)
    (h : addSourceFileAtPath st filePath = (st1, Except.ok sf)) :
    findIdentifierNode sf symbolName
      = (preorderForest sf.children).find?
          (fun n => n.kind == SKind.identifier && n.text == symbolName) ∧
    (match findIdentifierNode sf symbolName with
     | none =>
         findAllReferences prov st filePath symbolName
           = (st1, .ok (identNotFoundMsg symbolName filePath)) ∧
         safeRenameSymbol prov st filePath symbolName newName
           = (st1, .ok (identNotFoundMsg symbolName filePath))
     | some ident =>
         findAllReferences prov st filePath symbolName
           = (st1, .ok (foundRefsMsg prov ident)) ∧
         safeRenameSymbol prov st filePath symbolName newName
           = renameResolvedPhase prov st1 symbolName newName) := by
  refine ⟨findIdentifierNode_eq sf symbolName, ?_⟩
  cases hf : findIdentifierNode sf symbolName with
  | none =>
      refine ⟨?_, ?_⟩
      · unfold findAllReferences
        rw [h]
        dsimp only
        rw [hf]
      · unfold safeRenameSymbol
        rw [h]
        dsimp only
        rw [hf]
  | some ident =>
      refine ⟨?_, ?_⟩
      · unfold findAllReferences
        rw [h]
        dsimp only
        rw [hf]
      · unfold safeRenameSymbol
        rw [h]
        dsimp only
        rw [hf]

/-- The trivial provider used for concrete instantiations: no reference
groups, identity rename, identity formatter, no diagnostics. -/
def provTriv : Provider := ⟨fun _ => [], fun _ _ m => m, fun t => t, fun _ => []⟩

/-- A lone identifier node with text "x". -/
def identX : Tree := Tree.mk SKind.identifier "x" 0 1 []

/-- A source file containing the identifier "x". -/
def sfWithX : Tree := Tree.mk SKind.other "" 0 10 [identX]

/-- A source file containing no identifier at all. -/
def sfNoX : Tree := Tree.mk SKind.other "" 0 10 []

/-- A module state whose storage holds f.ts (content `sfWithX`) with an
empty model. -/
def stSeed : St := ⟨0, [], [("f.ts", sfWithX)], []⟩

/-- The state after f.ts has been loaded into the model of `stSeed`. -/
def stSeed1 : St := ⟨0, [("f.ts", sfWithX)], [("f.ts", sfWithX)], []⟩

theorem findIdentifierNode_sfWithX :
    findIdentifierNode sfWithX "x" = some identX := by
  simp [findIdentifierNode, getFirstDescendant, firstInForest, sfWithX, identX,
    Tree.kind, Tree.text, Tree.children]

/-- Concrete instantiation of the name-resolution theorem at the seeded
state and the file containing identifier "x". -/
theorem resolveByName_characterization_witness :
    findIdentifierNode sfWithX "x"
      = (preorderForest sfWithX.children).find?
          (fun n => n.kind == SKind.identifier && n.text == "x") ∧
    findAllReferences provTriv stSeed "f.ts" "x"
      = (stSeed1, .ok (foundRefsMsg provTriv identX)) ∧
    safeRenameSymbol provTriv stSeed "f.ts" "x" "y"
      = renameResolvedPhase provTriv stSeed1 "x" "y" := by
  have h := resolveByName_characterization provTriv stSeed stSeed1 "f.ts" "x" "y" sfWithX rfl
  have h2 := h.2
  rw [findIdentifierNode_sfWithX] at h2
  exact ⟨h.1, h2.1, h2.2⟩

theorem string_data_append (a b : String) : (a ++ b).data = a.data ++ b.data := by
  cases a
  cases b
  rfl

theorem noImportsMsg_head (oldPath filePath : String) :
    (noImportsMsg oldPath filePath).data.head? = some 'I' := by
  have hI : "INFO: No imports matching \"".data.head? = some 'I' := rfl
  simp [noImportsMsg, string_data_append, List.head?_append, hI]

theorem updatedImportsMsg_head (changes : Nat) (filePath : String) :
    (updatedImportsMsg changes filePath).data.head? = some 'S' := by
  have hS : "SUCCESS: Updated ".data.head? = some 'S' := rfl
  simp [updatedImportsMsg, string_data_append, List.head?_append, hS]

theorem noImportsMsg_ne_updatedImportsMsg (oldPath filePath : String) (c : Nat) (q : String) :
    noImportsMsg oldPath filePath ≠ updatedImportsMsg c q := by
  intro he
  have h1 := noImportsMsg_head oldPath filePath
  have h2 := updatedImportsMsg_head c q
  rw [he] at h1
  rw [h1] at h2
  exact absurd h2 (by decide)

theorem updateImportDecl_zero (oldPath newPath : String) (c : Tree)
    (h : (updateImportDecl oldPath newPath c).2 = 0) :
    (updateImportDecl oldPath newPath c).1 = c := by
  by_cases hc : (c.kind == SKind.importDecl && c.text == oldPath) = true
  · simp [updateImportDecl, hc] at h
  · simp [updateImportDecl, hc]

theorem updateImports_map_zero (oldPath newPath : String) : ∀ cs : List Tree,
    ((cs.map (updateImportDecl oldPath newPath)).map Prod.snd).sum = 0 →
    (cs.map (updateImportDecl oldPath newPath)).map Prod.fst = cs := by
  intro cs
  induction cs with
  | nil => intro _; rfl
  | cons c rest ih =>
      intro h
      simp only [List.map_cons, List.sum_cons] at h
      have h1 : (updateImportDecl oldPath newPath c).2 = 0 := by omega
      have h2 : ((rest.map (updateImportDecl oldPath newPath)).map Prod.snd).sum = 0 := by
        omega
      simp only [List.map_cons]
      rw [updateImportDecl_zero oldPath newPath c h1, ih h2]

theorem updateImports_zero (sf : Tree) (oldPath newPath : String)
    (h : (updateImports sf oldPath newPath).2 = 0) :
    (updateImports sf oldPath newPath).1 = sf := by
  cases sf with
  | mk k tx s e cs =>
      unfold updateImports at h ⊢
      simp only [Tree.children] at h ⊢
      rw [updateImports_map_zero oldPath newPath cs h]
      rfl

/-- C6: when no import declaration of the target file has the old
specifier, updateImport reports the INFO no-op result — a string
distinct from every success-with-changes result — and performs no
storage write, leaving the persisted content byte-identical; only a
positive change count reaches the save. -/
theorem safeUpdateImport_noop (st st1 : St) (filePath oldPath newPath : String) (sf : Tree)
    (c : Nat) (q : String)
    (h : addSourceFileAtPath st filePath = (st1, Except.ok sf))
    (hzero : (updateImports sf oldPath newPath).2 = 0) :
    safeUpdateImport st filePath oldPath newPath
      = ({ st1 with model := setEntry filePath sf st1.model },
          .ok (noImportsMsg oldPath filePath)) ∧
    (safeUpdateImport st filePath oldPath newPath).1.storage = st.storage ∧
    noImportsMsg oldPath filePath ≠ updatedImportsMsg c q := by
  have hsf := updateImports_zero sf oldPath newPath hzero
  have heq : safeUpdateImport st filePath oldPath newPath
      = ({ st1 with model := setEntry filePath sf st1.model },
          .ok (noImportsMsg oldPath filePath)) := by
    unfold safeUpdateImport
    rw [h]
    dsimp only
    rw [hzero, hsf]
    simp
  have hs := (addSourceFileAtPath_frame st filePath).1
  rw [h] at hs
  refine ⟨heq, ?_, noImportsMsg_ne_updatedImportsMsg oldPath filePath c q⟩
  rw [heq]
  exact hs

/-- Concrete instantiation of the no-op theorem: f.ts holds only the
identifier "x" and no import declarations, so updating "./a" to "./b"
matches nothing. -/
theorem safeUpdateImport_noop_witness :
    safeUpdateImport stSeed "f.ts" "./a" "./b"
      = ({ stSeed1 with model := setEntry "f.ts" sfWithX stSeed1.model },
          .ok (noImportsMsg "./a" "f.ts")) ∧
    (safeUpdateImport stSeed "f.ts" "./a" "./b").1.storage = stSeed.storage ∧
    noImportsMsg "./a" "f.ts" ≠ updatedImportsMsg 1 "f.ts" :=
  safeUpdateImport_noop stSeed stSeed1 "f.ts" "./a" "./b" sfWithX 1 "f.ts" rfl rfl

/-- C7: renameSymbol performs name resolution before any mutation: when
resolution of the old name fails, the operation returns the not-found
error value and the persistent storage is byte-identical to what it was
before the call — no file is touched; only when resolution succeeds
does the operation proceed to the provider rename rewrite followed by
the save of the files. -/
theorem safeRenameSymbol_resolution_first (prov : Provider) (st st1 : St)
    (filePath symbolName newName : String) (sf : Tree)
    (h : addSourceFileAtPath st filePath = (st1, Except.ok sf)) :
    (findIdentifierNode sf symbolName = none →
       safeRenameSymbol prov st filePath symbolName newName
         = (st1, .ok (identNotFoundMsg symbolName filePath)) ∧
       (safeRenameSymbol prov st filePath symbolName newName).1.storage = st.storage) ∧
    (∀ ident, findIdentifierNode sf symbolName = some ident →
       safeRenameSymbol prov st filePath symbolName newName
         = renameResolvedPhase prov st1 symbolName newName) := by
  have hs := (addSourceFileAtPath_frame st filePath).1
  rw [h] at hs
  constructor
  · intro hf
    have heq : safeRenameSymbol prov st filePath symbolName newName
        = (st1, .ok (identNotFoundMsg symbolName filePath)) := by
      unfold safeRenameSymbol
      rw [h]
      dsimp only
      rw [hf]
    exact ⟨heq, by rw [heq]; exact hs⟩
  · intro ident hf
    unfold safeRenameSymbol
    rw [h]
    dsimp only
    rw [hf]

theorem findIdentifierNode_sfWithX_zz :
    findIdentifierNode sfWithX "zz" = none := by
  simp [findIdentifierNode, getFirstDescendant, firstInForest, sfWithX, identX,
    Tree.kind, Tree.text, Tree.children]

/-- Concrete instantiation of the resolution-before-mutation theorem:
renaming the absent identifier "zz" in f.ts fails and leaves storage
untouched. -/
theorem safeRenameSymbol_resolution_first_witness :
    safeRenameSymbol provTriv stSeed "f.ts" "zz" "w"
      = (stSeed1, .ok (identNotFoundMsg "zz" "f.ts")) ∧
    (safeRenameSymbol provTriv stSeed "f.ts" "zz" "w").1.storage = stSeed.storage :=
  (safeRenameSymbol_resolution_first provTriv stSeed stSeed1 "f.ts" "zz" "w" sfWithX rfl).1
    findIdentifierNode_sfWithX_zz

/-- A module state where stale.ts is already loaded in the model with
the old content `sfWithX` while storage holds the newer `sfNoX`. -/
def stStale : St := ⟨0, [("stale.ts", sfWithX)], [("stale.ts", sfNoX)], []⟩

/-- C9: the by-name reference lookup does not refresh an already-loaded
file: with the stale tree (containing identifier "x") in the model and
fresh storage content without any identifier, findAllReferences still
resolves "x" against the stale tree and leaves the model unchanged —
even though the fresh storage content has no such identifier — whereas
checkTypeErrors on the same state does refresh, leaving the storage
content in the model. -/
theorem findAllReferences_skips_refresh :
    findAllReferences provTriv stStale "stale.ts" "x"
      = (stStale, .ok (foundRefsMsg provTriv identX)) ∧
    findIdentifierNode sfNoX "x" = none ∧
    stStale.storage.lookup "stale.ts" = some sfNoX ∧
    sfNoX ≠ sfWithX ∧
    (checkTypeErrors provTriv stStale "stale.ts").1.model.lookup "stale.ts" = some sfNoX := by
  refine ⟨?_, ?_, rfl, ?_, rfl⟩
  · unfold findAllReferences
    rw [show addSourceFileAtPath stStale "stale.ts" = (stStale, .ok sfWithX) from rfl]
    dsimp only
    rw [findIdentifierNode_sfWithX]
  · simp [findIdentifierNode, getFirstDescendant, firstInForest, sfNoX, Tree.children]
  · simp [sfNoX, sfWithX]

end TSLS
